import Mathlib

/- Verification of `src/sindy/optimizers/optimizers.py`: the sparse-regression
   optimizers BaseOptimizer, STLSQ, SR3, LASSO and ElasticNet.

   Modelling conventions:
   * numpy float vectors are modelled as lists of rationals (`Vec`);
   * the Python `history_` list is stored most-recent-first: Python appends at
     the end and reads `history_[-1]` / `history_[-2]`, we cons at the head and
     read the head / the head of the tail;
   * the external numerical collaborators (`ridge_regression`,
     `np.linalg.lstsq`, `cho_factor`/`cho_solve`, the sklearn Lasso/ElasticNet
     coordinate-descent solvers) are oracle parameters of the embedding: within
     one fit, `ridge_regression(x[:, ind], y, alpha)` depends only on the
     support mask `ind`, so the STLSQ oracle has type `List Bool → Vec`;
   * the loop-exit situation (which branch ended the loop) and the per-round
     data are recorded in the result as extra read-only fields (`state`,
     `masks`, `rounds`); they instrument the control flow of `_reduce` without
     altering it. -/

abbrev Vec := List ℚ

/-- `np.count_nonzero(ind)` and `sum(ind)` for a boolean numpy array. -/
def countTrue (l : List Bool) : ℕ := l.countP id

/-- Truthiness `bool(x)` of a float entry, as used in `STLSQ._no_change`. -/
def isNZ (x : ℚ) : Bool := decide (x ≠ 0)

/-- The zero/nonzero pattern of a vector (elementwise `bool(x)`). -/
def pattern (v : Vec) : List Bool := v.map isNZ

/-- `c = np.zeros(dim); c[ind] = coef` in `STLSQ._sparse_coefficients`
(lines 104-105): scatter the regressed coefficients back to full length, with
zeros at inactive positions.  (numpy raises if `len(coef)` differs from the
number of active positions; the embedding totalises that case by padding with
zeros / dropping extras, and theorems that need it carry the length contract
`(regress ind).length = countTrue ind` as a hypothesis.) -/
def scatter : List Bool → Vec → Vec
  | [], _ => []
  | true :: ind, v :: coef => v :: scatter ind coef
  | true :: ind, [] => 0 :: scatter ind []
  | false :: ind, coef => 0 :: scatter ind coef

/-- `big_ind = np.abs(c) >= threshold` (`STLSQ._sparse_coefficients`, line 106). -/
def bigInd (θ : ℚ) (c : Vec) : List Bool := c.map fun v => decide (θ ≤ |v|)

/-- `c[~big_ind] = 0` (`STLSQ._sparse_coefficients`, line 107). -/
def applyThreshold (θ : ℚ) (c : Vec) : Vec := c.map fun v => if θ ≤ |v| then v else 0

/-- `STLSQ._no_change` (lines 117-123): compare the boolean truthiness of the
two most recent history entries entrywise (`zip` truncates to the shorter, as
in Python); with fewer than two entries the previous one is `zeros_like(this)`.
The empty-history case is unreachable from `fit` (the history is seeded with
the initial guess before `_reduce` runs); Python would raise an IndexError
there, the embedding returns `true`. -/
def noChange (hist : List Vec) : Bool :=
  match hist with
  | [] => true
  | [cur] => (cur.zip (List.replicate cur.length (0 : ℚ))).all fun p => isNZ p.1 == isNZ p.2
  | cur :: prev :: _ => (cur.zip prev).all fun p => isNZ p.1 == isNZ p.2

/-- The non-fatal diagnostics `_reduce` can emit via `warnings.warn`. -/
inductive Warn
  | degenerateSupport
  | nonConvergence
  | noIterationsLeft
  deriving Repr, DecidableEq, Inhabited

/-- Which branch ended the `_reduce` loop (instrumentation of the control
flow: the stopping-test `break`, the empty-support `break`, or falling off the
end of `range(max_iter)`). -/
inductive LoopState
  | converged
  | degenerate
  | exhausted
  deriving Repr, DecidableEq, Inhabited

/-- Instrumentation record of one STLSQ round that reached the thresholding
step: the support mask entering and leaving the round, the history entry
appended by `_sparse_coefficients`, the history entry immediately below it
(i.e. `history_[-2]` at the time of the stopping test), and whether the
stopping test fired (ending the loop in `LoopState.converged`). -/
structure RoundInfo where
  indBefore : List Bool
  indAfter : List Bool
  entry : Vec
  prevEntry : Vec
  conv : Bool
  deriving Repr, DecidableEq, Inhabited

/-- The state written back by `STLSQ._reduce` (`self.coef_`, `self.ind_`,
`self.iters`, `self.history_`), its diagnostics, and the instrumentation
traces: `masks` is the support mask after each thresholding round, newest
first, ending with the mask that entered the loop; `rounds` records each
thresholding round, newest first. -/
structure ReduceResult where
  coef : Vec
  ind : List Bool
  iters : ℕ
  hist : List Vec
  warns : List Warn
  state : LoopState
  masks : List (List Bool)
  rounds : List RoundInfo
  deriving Repr, DecidableEq, Inhabited

/-- The `for _ in range(max_iter)` loop of `STLSQ._reduce` (lines 134-160).
`regress` is the external `ridge_regression` oracle (line 113), `nsel` is
`n_features_selected`, computed once from the mask that entered `_reduce`
(line 132) and never updated.  Each round: if the support is empty, warn and
stop with an all-zero coefficient vector of full length (lines 135-141);
otherwise regress on the active columns (incrementing `iters`), scatter and
threshold (`_sparse_coefficients`), append to the history, and stop if the new
support size equals `nsel` or `_no_change()` holds (line 151). -/
def reduceLoop (regress : List Bool → Vec) (θ : ℚ) (nsel : ℕ) :
    ℕ → List Bool → Vec → List Vec → ℕ → List (List Bool) → List RoundInfo → ReduceResult
  | 0, ind, coef, hist, iters, mtr, rtr =>
      { coef := coef, ind := ind, iters := iters, hist := hist,
        warns := [.nonConvergence], state := .exhausted, masks := mtr, rounds := rtr }
  | fuel + 1, ind, _coef, hist, iters, mtr, rtr =>
      if countTrue ind = 0 then
        { coef := List.replicate ind.length 0, ind := ind, iters := iters, hist := hist,
          warns := [.degenerateSupport], state := .degenerate, masks := mtr, rounds := rtr }
      else
        let c := regress ind
        let full := scatter ind c
        let coefN := applyThreshold θ full
        let indN := bigInd θ full
        let hist2 := coefN :: hist
        let fired := decide (countTrue indN = nsel) || noChange hist2
        let info : RoundInfo :=
          { indBefore := ind, indAfter := indN, entry := coefN,
            prevEntry := hist.headD [], conv := fired }
        if fired then
          { coef := coefN, ind := indN, iters := iters + 1, hist := hist2,
            warns := [], state := .converged, masks := indN :: mtr, rounds := info :: rtr }
        else
          reduceLoop regress θ nsel fuel indN coefN hist2 (iters + 1) (indN :: mtr) (info :: rtr)

/-- `STLSQ._reduce` (lines 125-170): computes `n_features_selected` from the
entry mask and runs the loop.  The `max_iter = 0` branch mirrors the
`for`-`else` fallback (lines 154-168): the loop body never ran, Python warns
about non-convergence, hits the `NameError` fallback `coef = self.coef_`, and
warns again; it is reachable only when `max_iter = 0`, which the constructor
forbids. -/
def STLSQreduce (regress : List Bool → Vec) (θ : ℚ) (maxIter : ℕ)
    (ind0 : List Bool) (coef0 : Vec) (hist0 : List Vec) : ReduceResult :=
  if maxIter = 0 then
    { coef := coef0, ind := ind0, iters := 0, hist := hist0,
      warns := [.nonConvergence, .noIterationsLeft], state := .exhausted,
      masks := [ind0], rounds := [] }
  else
    reduceLoop regress θ (countTrue ind0) maxIter ind0 coef0 hist0 0 [ind0] []

/-- `BaseOptimizer.fit` for an STLSQ instance (lines 62-67): reset the
iteration counter to 0, reset the support mask to all-true, take the external
unconstrained least-squares solution `lstsq` as the initial coefficient guess,
append it to the history, and delegate to `_reduce`.  The prior values of
`self.iters`, `self.ind_` and `self.coef_` are unconditionally overwritten at
lines 62-64 before anything reads them, so the only prior instance state the
result can depend on is `history_`, passed here as `oldHist` (the source never
clears `history_`). -/
def stlsqFit (regress : List Bool → Vec) (θ : ℚ) (maxIter nfeat : ℕ)
    (lstsq : Vec) (oldHist : List Vec) : ReduceResult :=
  STLSQreduce regress θ maxIter (List.replicate nfeat true) lstsq (lstsq :: oldHist)

/-- `np.count_nonzero` on a float vector. -/
def countNonzeroQ (v : Vec) : ℕ := v.countP isNZ

/-- `BaseOptimizer.complexity` (lines 72-77):
`np.count_nonzero(self.coef_) + np.count_nonzero([abs(self.intercept_) >= self.threshold])`. -/
def complexity (coef : Vec) (intercept θ : ℚ) : ℕ :=
  countNonzeroQ coef + countTrue [decide (θ ≤ |intercept|)]

/-- Hyperparameters held by a validated STLSQ instance (lines 98-101). -/
structure STLSQParams where
  threshold : ℚ
  alpha : ℚ
  max_iter : ℕ
  deriving Repr, DecidableEq

/-- `STLSQ.__init__` (lines 81-101): validation raises `ValueError` for
`threshold < 0`, `alpha < 0`, `max_iter <= 0`, in that order. -/
def STLSQ.mk (threshold alpha : ℚ) (max_iter : ℤ) : Except String STLSQParams :=
  if threshold < 0 then .error "threshold cannot be negative"
  else if alpha < 0 then .error "alpha cannot be negative"
  else if max_iter ≤ 0 then .error "max_iter must be positive"
  else .ok ⟨threshold, alpha, max_iter.toNat⟩

/-- Modelled from the spec: the proximal-operator factory `get_prox` lives in
`sindy/utils/base.py`, which is not under `src/`.  Per the spec it maps a
thresholder identifier to a `(vector, threshold) → thresholded vector`
function — hard thresholding for the L0 kind, soft thresholding for the L1
kind — and "fails with an unrecognized-operator error if `thresholder_kind`
is not a known variant". -/
def get_prox (name : String) : Option (Vec → ℚ → Vec) :=
  if name = "l0" then
    some fun v θ => v.map fun x => if θ ≤ |x| then x else 0
  else if name = "l1" then
    some fun v θ => v.map fun x => if θ < |x| then (if 0 ≤ x then x - θ else x + θ) else 0
  else none

/-- Hyperparameters and the selected proximal operator held by a validated SR3
instance (lines 199-204). -/
structure SR3Params where
  threshold : ℚ
  nu : ℚ
  tol : ℚ
  thresholder : String
  prox : Vec → ℚ → Vec
  max_iter : ℕ

/-- `SR3.__init__` (lines 179-204): validation raises `ValueError` for
`threshold < 0`, `nu <= 0`, `tol <= 0`, `max_iter <= 0`, in that order, and
then `self.prox = get_prox(thresholder)` (line 203) raises for an
unrecognized thresholder kind. -/
def SR3.mk (threshold nu tol : ℚ) (thresholder : String) (max_iter : ℤ) :
    Except String SR3Params :=
  if threshold < 0 then .error "threshold cannot be negative"
  else if nu ≤ 0 then .error "nu must be positive"
  else if tol ≤ 0 then .error "tol must be positive"
  else if max_iter ≤ 0 then .error "max_iter must be positive"
  else
    match get_prox thresholder with
    | some p => .ok ⟨threshold, nu, tol, thresholder, p, max_iter.toNat⟩
    | none => .error "unrecognized thresholder kind"

/-- Whether a construction attempt succeeded. -/
def exceptOk {ε α : Type} : Except ε α → Bool
  | .ok _ => true
  | .error _ => false

/-- Elementwise numpy vector addition. -/
def vecAdd (a b : Vec) : Vec := List.zipWith (· + ·) a b

/-- Elementwise numpy vector subtraction. -/
def vecSub (a b : Vec) : Vec := List.zipWith (· - ·) a b

/-- `np.sum(v ** 2)`. -/
def sumSq (v : Vec) : ℚ := (v.map fun x => x * x).sum

/-- `SR3._update_full_coef` (lines 206-210): `b = x_transpose_y +
coef_sparse / nu; coef_full = cho_solve(cho, b)`.  `choSolve` is the external
back-substitution against the factorization cached at the top of `_reduce`,
`xty` is the cached `x.T @ y`; the `iters` increment is performed by the loop. -/
def updateFullCoef (choSolve : Vec → Vec) (xty : Vec) (ν : ℚ) (z : Vec) : Vec :=
  choSolve (vecAdd xty (z.map fun x => x / ν))

/-- `SR3._convergence_criterion` (lines 217-223): sum of squared differences
of the two most recent history entries, with an all-zero previous entry when
the history has fewer than two (unreachable from `fit`, which seeds the
history). -/
def convergenceCriterion (hist : List Vec) : ℚ :=
  match hist with
  | [] => 0
  | [cur] => sumSq (vecSub cur (List.replicate cur.length (0 : ℚ)))
  | cur :: prev :: _ => sumSq (vecSub cur prev)

/-- The state written back by `SR3._reduce` (`self.coef_ = coef_sparse`,
`self.coef_full_ = coef_full`, `self.iters`, `self.history_`) plus its
diagnostics and exit instrumentation. -/
structure SR3Result where
  coef : Vec
  coefFull : Vec
  iters : ℕ
  hist : List Vec
  warns : List Warn
  state : LoopState
  deriving Repr, DecidableEq, Inhabited

/-- The `for _ in range(max_iter)` loop of `SR3._reduce` (lines 240-257):
full update via the cached factorization, sparse update `prox(coef_full,
threshold)` appended to the history, stop when the convergence criterion drops
below `tol`; on exhaustion warn and keep the last iterate.  `wLast` carries the
`coef_full` binding of the most recent round (read at line 260 after the
loop). -/
def sr3Loop (choSolve : Vec → Vec) (xty : Vec) (prox : Vec → ℚ → Vec) (θ ν tol : ℚ) :
    ℕ → Vec → Vec → List Vec → ℕ → SR3Result
  | 0, z, wLast, hist, iters =>
      { coef := z, coefFull := wLast, iters := iters, hist := hist,
        warns := [.nonConvergence], state := .exhausted }
  | fuel + 1, z, _wLast, hist, iters =>
      let w := updateFullCoef choSolve xty ν z
      let z2 := prox w θ
      let hist2 := z2 :: hist
      if convergenceCriterion hist2 < tol then
        { coef := z2, coefFull := w, iters := iters + 1, hist := hist2,
          warns := [], state := .converged }
      else
        sr3Loop choSolve xty prox θ ν tol fuel z2 w hist2 (iters + 1)

/-- `SR3._reduce` (lines 225-260), after the per-fit precomputation of the
Cholesky factorization and `x.T @ y` (both external).  The initial `wLast`
slot is `[]`: with `max_iter = 0` Python would hit a `NameError` at line 260,
but the constructor forbids `max_iter = 0`. -/
def sr3Reduce (choSolve : Vec → Vec) (xty : Vec) (prox : Vec → ℚ → Vec)
    (θ ν tol : ℚ) (maxIter : ℕ) (coef0 : Vec) (hist0 : List Vec) : SR3Result :=
  sr3Loop choSolve xty prox θ ν tol maxIter coef0 [] hist0 0

/-- `BaseOptimizer.fit` for an SR3 instance: reset, seed the history with the
external least-squares guess `lstsq`, and delegate to `_reduce`. -/
def sr3Fit (choSolve : Vec → Vec) (xty : Vec) (prox : Vec → ℚ → Vec)
    (θ ν tol : ℚ) (maxIter : ℕ) (lstsq : Vec) (oldHist : List Vec) : SR3Result :=
  sr3Reduce choSolve xty prox θ ν tol maxIter lstsq (lstsq :: oldHist)

/-- The externally visible per-fit state of a wrapper optimizer instance:
iteration count, coefficient vector, support mask, history (newest first). -/
structure FitOut where
  iters : ℕ
  coef : Vec
  ind : List Bool
  hist : List Vec
  deriving Repr, DecidableEq, Inhabited

/-- Lines 62-65 of `BaseOptimizer.fit`: reset `iters` to 0 and the support
mask to all features active, set the coefficient vector to the external
unconstrained least-squares guess, and append it to the history. -/
def baseFitInit (lstsq : Vec) (nfeat : ℕ) (s : FitOut) : FitOut :=
  { iters := 0, coef := lstsq, ind := List.replicate nfeat true, hist := lstsq :: s.hist }

/-- `LASSO._reduce` (lines 282-294): fit the external coordinate-descent Lasso
solver and copy back its coefficient vector and iteration count (`solverCoef`,
`solverIters` are that solver's outputs).  No other field is touched. -/
def lassoReduce (solverCoef : Vec) (solverIters : ℕ) (s : FitOut) : FitOut :=
  { s with coef := solverCoef, iters := solverIters }

/-- `ElasticNet._reduce` (lines 320-333): same shape as `LASSO._reduce`. -/
def elasticNetReduce (solverCoef : Vec) (solverIters : ℕ) (s : FitOut) : FitOut :=
  { s with coef := solverCoef, iters := solverIters }

/-- `fit` for a LASSO instance: shared reset/seed, then `LASSO._reduce`. -/
def lassoFit (solverCoef : Vec) (solverIters : ℕ) (lstsq : Vec) (nfeat : ℕ)
    (s : FitOut) : FitOut :=
  lassoReduce solverCoef solverIters (baseFitInit lstsq nfeat s)

/-- `fit` for an ElasticNet instance: shared reset/seed, then
`ElasticNet._reduce`. -/
def elasticNetFit (solverCoef : Vec) (solverIters : ℕ) (lstsq : Vec) (nfeat : ℕ)
    (s : FitOut) : FitOut :=
  elasticNetReduce solverCoef solverIters (baseFitInit lstsq nfeat s)

/-- Pointwise implication between support masks of equal length: every feature
active in `a` is active in `b` (so `b` false at an index forces `a` false
there). -/
def maskLe (a b : List Bool) : Prop :=
  List.Forall₂ (fun x y => x = true → y = true) a b

/-- The stopping-test shape asserted by the spec for one STLSQ round: the
round ends the loop in the converged state exactly when the support size is
unchanged across the round or the zero/nonzero pattern of the appended history
entry equals that of the history entry immediately preceding it. -/
def GoodRound (r : RoundInfo) : Prop :=
  r.conv = true ↔
    (countTrue r.indAfter = countTrue r.indBefore ∨ pattern r.entry = pattern r.prevEntry)

/-- A concrete STLSQ fit used to exercise the stopping test: two features,
threshold 2, initial least-squares guess `[1, 0]`, ridge oracle constantly
`[3, 1]`. -/
def exampleRunC2 : ReduceResult :=
  stlsqFit (fun _ => [3, 1]) 2 20 2 [1, 0] []

/-- A two-feature ridge oracle for concrete runs: always returns `[3, 4]`. -/
def oracleTwoFeat : List Bool → Vec := fun _ => [3, 4]

/-- Ridge oracle for the refit example: one feature, the regression always
returns `[5]`. -/
def refitOracle : List Bool → Vec := fun _ => [5]

/-- First fit of a fresh single-feature STLSQ instance (threshold 0, initial
guess `[3]`): the history it produces is `[[5], [3]]` (newest first). -/
def fitOnce : ReduceResult := stlsqFit refitOracle 0 20 1 [3] []

/-- Second fit of the same instance on the same data: `fit` does not clear
`history_`, so the surviving prior state is `fitOnce.hist`. -/
def fitTwice : ReduceResult := stlsqFit refitOracle 0 20 1 [3] fitOnce.hist

/-! Helper lemmas about the elementary operations. -/

theorem scatter_length (ind : List Bool) : ∀ c : Vec, (scatter ind c).length = ind.length := by
  induction ind with
  | nil => intro c; rfl
  | cons b ind ih =>
    intro c
    cases b
    · simp [scatter, ih]
    · cases c with
      | nil => simp [scatter, ih]
      | cons v c => simp [scatter, ih]

theorem bigInd_length (θ : ℚ) (v : Vec) : (bigInd θ v).length = v.length := by
  simp [bigInd]

theorem applyThreshold_length (θ : ℚ) (v : Vec) : (applyThreshold θ v).length = v.length := by
  simp [applyThreshold]

theorem countTrue_le_length (l : List Bool) : countTrue l ≤ l.length :=
  List.countP_le_length _

theorem countTrue_replicate_true (n : ℕ) : countTrue (List.replicate n true) = n := by
  induction n with
  | zero => rfl
  | succ n ih => simp [countTrue, List.replicate_succ, List.countP_cons] at ih ⊢; omega

theorem bigInd_nonpos {θ : ℚ} (hθ : θ ≤ 0) (v : Vec) :
    bigInd θ v = List.replicate v.length true := by
  induction v with
  | nil => rfl
  | cons x v ih =>
    simp [bigInd, List.replicate_succ] at ih ⊢
    exact ⟨le_trans hθ (abs_nonneg x), ih⟩

theorem applyThreshold_nonpos {θ : ℚ} (hθ : θ ≤ 0) (v : Vec) : applyThreshold θ v = v := by
  induction v with
  | nil => rfl
  | cons x v ih =>
    show (if θ ≤ |x| then x else 0) :: applyThreshold θ v = x :: v
    rw [if_pos (le_trans hθ (abs_nonneg x)), ih]

theorem scatter_replicate_true (n : ℕ) : ∀ c : Vec, c.length = n →
    scatter (List.replicate n true) c = c := by
  induction n with
  | zero => intro c hc; rw [List.length_eq_zero] at hc; subst hc; rfl
  | succ n ih =>
    intro c hc
    cases c with
    | nil => simp at hc
    | cons v c => simp [List.replicate_succ, scatter, ih c (by simpa using hc)]

/-! C3: the complexity metric. -/

/-- C3 (counterexample): with coefficient vector `[0, 2, 0, -1/20]`,
`threshold = 1/10` and intercept `0`, `BaseOptimizer.complexity` does not
equal `1 +` the intercept term: `count_nonzero` counts the entry `-1/20`
(which is nonzero although below the threshold), giving 2. -/
theorem complexity_example_refuted :
    ¬ (complexity [0, 2, 0, -(1/20)] 0 (1/10)
        = 1 + (if (1 : ℚ)/10 ≤ |(0 : ℚ)| then 1 else 0)) := by
  norm_num [complexity, countNonzeroQ, countTrue, isNZ, List.countP_cons]

/-- C3 (amended): for a model with coefficient vector `[0, 2, 0, -1/20]` and
`threshold = 1/10`, the complexity metric equals 2 (the number of nonzero
coefficient entries: `2` and `-1/20`) plus 1 if the absolute intercept is at
least the threshold, else plus 0. -/
theorem complexity_example_value (ι : ℚ) :
    complexity [0, 2, 0, -(1/20)] ι (1/10) = 2 + (if (1 : ℚ)/10 ≤ |ι| then 1 else 0) := by
  rcases le_or_lt ((1 : ℚ)/10) |ι| with h | h
  · norm_num [complexity, countNonzeroQ, countTrue, isNZ, List.countP_cons, h]
  · norm_num [complexity, countNonzeroQ, countTrue, isNZ, List.countP_cons, not_le.2 h]

/-! C10: the wrapper optimizers never touch the support mask. -/

/-- C10: for every fit of the LASSO or ElasticNet wrapper, the support mask
remains the all-true vector set at the start of `fit`, whatever coefficient
vector the external solver returns; their `_reduce` updates only the
coefficient vector and the iteration count, leaving the mask and the history
untouched. -/
theorem wrapper_mask_untouched :
    (∀ (sc : Vec) (si : ℕ) (lsq : Vec) (nfeat : ℕ) (s : FitOut),
        (lassoFit sc si lsq nfeat s).ind = List.replicate nfeat true ∧
        (elasticNetFit sc si lsq nfeat s).ind = List.replicate nfeat true) ∧
    (∀ (sc : Vec) (si : ℕ) (s : FitOut),
        (lassoReduce sc si s).ind = s.ind ∧ (lassoReduce sc si s).hist = s.hist ∧
        (elasticNetReduce sc si s).ind = s.ind ∧ (elasticNetReduce sc si s).hist = s.hist) :=
  ⟨fun _ _ _ _ _ => ⟨rfl, rfl⟩, fun _ _ _ => ⟨rfl, rfl, rfl, rfl⟩⟩

/-! C5: the SR3 prox invariant at loop exit. -/

theorem sr3Loop_prox (choSolve : Vec → Vec) (xty : Vec) (prox : Vec → ℚ → Vec)
    (θ ν tol : ℚ) :
    ∀ (fuel : ℕ) (z w : Vec) (hist : List Vec) (iters : ℕ),
      (1 ≤ fuel ∨ z = prox w θ) →
      (sr3Loop choSolve xty prox θ ν tol fuel z w hist iters).coef
        = prox (sr3Loop choSolve xty prox θ ν tol fuel z w hist iters).coefFull θ := by
  intro fuel
  induction fuel with
  | zero =>
    intro z w hist iters h
    rcases h with h | h
    · omega
    · simpa [sr3Loop] using h
  | succ n ih =>
    intro z w hist iters _h
    simp only [sr3Loop]
    split
    · rfl
    · exact ih _ _ _ _ (Or.inr rfl)

/-- C5: for every SR3 fit (with the validated `max_iter ≥ 1`), at loop exit —
whether converged or exhausted — the coefficient vector written back to the
model equals the chosen proximal operator applied to the retained
unthresholded relaxed vector at the configured threshold:
`coef_sparse = prox(coef_full, threshold)`. -/
theorem sr3_prox_invariant (choSolve : Vec → Vec) (xty : Vec) (prox : Vec → ℚ → Vec)
    (θ ν tol : ℚ) (maxIter : ℕ) (lstsq : Vec) (oldHist : List Vec)
    (hm : 1 ≤ maxIter) :
    (sr3Fit choSolve xty prox θ ν tol maxIter lstsq oldHist).coef
      = prox (sr3Fit choSolve xty prox θ ν tol maxIter lstsq oldHist).coefFull θ :=
  sr3Loop_prox choSolve xty prox θ ν tol maxIter lstsq [] (lstsq :: oldHist) 0 (Or.inl hm)

/-- Witness for C5 at a concrete instantiation. -/
theorem sr3_prox_invariant_witness :
    1 ≤ 1 ∧
    (sr3Fit (fun _ => [1]) [0] (fun v _ => v) 0 1 1 1 [0] []).coef
      = (fun (v : Vec) (_ : ℚ) => v) (sr3Fit (fun _ => [1]) [0] (fun v _ => v) 0 1 1 1 [0] []).coefFull 0 :=
  ⟨le_refl 1, sr3_prox_invariant (fun _ => [1]) [0] (fun v _ => v) 0 1 1 1 [0] [] (le_refl 1)⟩

/-! C8: construction-time validation. -/

/-- C8 (counterexample): SR3 construction raises even though every numeric
bound is satisfied, when the thresholder kind is not recognized by the
proximal-operator factory (`self.prox = get_prox(thresholder)` runs at
construction, line 203). -/
theorem sr3_ctor_thresholder_refuted :
    (0 ≤ (0 : ℚ) ∧ 0 < (1 : ℚ) ∧ 0 < (1 : ℚ) ∧ 0 < (30 : ℤ)) ∧
      exceptOk (SR3.mk 0 1 1 "bogus" 30) = false := by
  constructor
  · norm_num
  · decide

/-- C8 (amended): STLSQ construction succeeds exactly when `threshold ≥ 0`,
`alpha ≥ 0` and `max_iter > 0`; SR3 construction succeeds exactly when
`threshold ≥ 0`, `nu > 0`, `tol > 0`, `max_iter > 0` and additionally the
thresholder kind is one the proximal-operator factory recognizes
(`"l0"` or `"l1"`). -/
theorem ctor_validation :
    (∀ (θ α : ℚ) (m : ℤ),
        exceptOk (STLSQ.mk θ α m) = true ↔ (0 ≤ θ ∧ 0 ≤ α ∧ 0 < m)) ∧
    (∀ (θ ν tol : ℚ) (name : String) (m : ℤ),
        exceptOk (SR3.mk θ ν tol name m) = true ↔
          (0 ≤ θ ∧ 0 < ν ∧ 0 < tol ∧ 0 < m ∧ (name = "l0" ∨ name = "l1"))) := by
  constructor
  · intro θ α m
    unfold STLSQ.mk
    by_cases h1 : θ < 0
    · rw [if_pos h1]
      constructor
      · intro h; simp [exceptOk] at h
      · rintro ⟨g1, -, -⟩; exact absurd h1 (not_lt.2 g1)
    · rw [if_neg h1]
      by_cases h2 : α < 0
      · rw [if_pos h2]
        constructor
        · intro h; simp [exceptOk] at h
        · rintro ⟨-, g2, -⟩; exact absurd h2 (not_lt.2 g2)
      · rw [if_neg h2]
        by_cases h3 : m ≤ 0
        · rw [if_pos h3]
          constructor
          · intro h; simp [exceptOk] at h
          · rintro ⟨-, -, g3⟩; omega
        · rw [if_neg h3]
          exact ⟨fun _ => ⟨not_lt.1 h1, not_lt.1 h2, by omega⟩, fun _ => rfl⟩
  · intro θ ν tol name m
    unfold SR3.mk
    by_cases h1 : θ < 0
    · rw [if_pos h1]
      constructor
      · intro h; simp [exceptOk] at h
      · rintro ⟨g1, -, -, -, -⟩; exact absurd h1 (not_lt.2 g1)
    · rw [if_neg h1]
      by_cases h2 : ν ≤ 0
      · rw [if_pos h2]
        constructor
        · intro h; simp [exceptOk] at h
        · rintro ⟨-, g2, -, -, -⟩; exact absurd h2 (not_le.2 g2)
      · rw [if_neg h2]
        by_cases h3 : tol ≤ 0
        · rw [if_pos h3]
          constructor
          · intro h; simp [exceptOk] at h
          · rintro ⟨-, -, g3, -, -⟩; exact absurd h3 (not_le.2 g3)
        · rw [if_neg h3]
          by_cases h4 : m ≤ 0
          · rw [if_pos h4]
            constructor
            · intro h; simp [exceptOk] at h
            · rintro ⟨-, -, -, g4, -⟩; omega
          · rw [if_neg h4]
            unfold get_prox
            by_cases h5 : name = "l0"
            · rw [if_pos h5]
              exact ⟨fun _ => ⟨not_lt.1 h1, not_le.1 h2, not_le.1 h3, by omega, Or.inl h5⟩,
                fun _ => rfl⟩
            · rw [if_neg h5]
              by_cases h6 : name = "l1"
              · rw [if_pos h6]
                exact ⟨fun _ => ⟨not_lt.1 h1, not_le.1 h2, not_le.1 h3, by omega, Or.inr h6⟩,
                  fun _ => rfl⟩
              · rw [if_neg h6]
                constructor
                · intro h; simp [exceptOk] at h
                · rintro ⟨-, -, -, -, g5 | g6⟩
                  · exact (h5 g5).elim
                  · exact (h6 g6).elim

/-! C6: the degenerate-support case. -/

/-- C6: (i) in any round entered with an empty support mask, `_reduce` emits
the degenerate-support diagnostic, sets the coefficient vector to all zeros of
full length, and stops at once — the iteration counter, history and round
trace are left untouched, so no further regression happens; (ii) end to end,
with `X` the 3×3 identity, `y = [1, 2, 3]` and `threshold = 10`, the fit
returns coefficients `[0, 0, 0]`, an all-false support mask and that
diagnostic, after exactly one regression (ridge regression of `y` on the
identity design over the full support returns `[1, 2, 3]`, supplied as the
oracle; the initial least-squares guess is likewise `[1, 2, 3]`). -/
theorem stlsq_degenerate_support :
    (∀ (R : List Bool → Vec) (θ : ℚ) (nsel fuel : ℕ) (ind : List Bool) (coef : Vec)
        (hist : List Vec) (iters : ℕ) (mtr : List (List Bool)) (rtr : List RoundInfo),
        countTrue ind = 0 →
        reduceLoop R θ nsel (fuel + 1) ind coef hist iters mtr rtr =
          { coef := List.replicate ind.length 0, ind := ind, iters := iters, hist := hist,
            warns := [Warn.degenerateSupport], state := LoopState.degenerate,
            masks := mtr, rounds := rtr }) ∧
    ((stlsqFit (fun _ => [1, 2, 3]) 10 20 3 [1, 2, 3] []).coef = [0, 0, 0] ∧
      (stlsqFit (fun _ => [1, 2, 3]) 10 20 3 [1, 2, 3] []).ind = [false, false, false] ∧
      (stlsqFit (fun _ => [1, 2, 3]) 10 20 3 [1, 2, 3] []).warns = [Warn.degenerateSupport] ∧
      (stlsqFit (fun _ => [1, 2, 3]) 10 20 3 [1, 2, 3] []).state = LoopState.degenerate ∧
      (stlsqFit (fun _ => [1, 2, 3]) 10 20 3 [1, 2, 3] []).iters = 1) := by
  constructor
  · intro R θ nsel fuel ind coef hist iters mtr rtr h
    simp [reduceLoop, h]
  · decide

/-- Witness for C6 at a concrete instantiation of the general conjunct. -/
theorem stlsq_degenerate_support_witness :
    countTrue [false, false] = 0 ∧
      reduceLoop (fun _ => []) 0 0 1 [false, false] [] [] 0 [] [] =
        { coef := [0, 0], ind := [false, false], iters := 0, hist := [],
          warns := [Warn.degenerateSupport], state := LoopState.degenerate,
          masks := [], rounds := [] } :=
  ⟨by decide,
    stlsq_degenerate_support.1 (fun _ => []) 0 0 0 [false, false] [] [] 0 [] [] (by decide)⟩

/-! C7: threshold zero eliminates nothing. -/

/-- C7: for every STLSQ fit with `threshold = 0` (and the validated
`max_iter ≥ 1`, `n_features ≥ 1`, with the ridge oracle returning a
full-length coefficient vector on the full support), no feature is eliminated:
the loop converges in the first round, the support mask stays all-true
throughout, and the returned coefficient vector is exactly what the regression
oracle (`ridge_regression` with the configured `alpha`; ordinary least squares
when `alpha = 0`) returns on the full feature set. -/
theorem stlsq_zero_threshold (R : List Bool → Vec) (maxIter nfeat : ℕ)
    (lstsq : Vec) (oldHist : List Vec)
    (hm : 1 ≤ maxIter) (hn : 1 ≤ nfeat)
    (hlen : (R (List.replicate nfeat true)).length = nfeat) :
    (stlsqFit R 0 maxIter nfeat lstsq oldHist).ind = List.replicate nfeat true ∧
    (stlsqFit R 0 maxIter nfeat lstsq oldHist).coef = R (List.replicate nfeat true) ∧
    (stlsqFit R 0 maxIter nfeat lstsq oldHist).state = LoopState.converged ∧
    (stlsqFit R 0 maxIter nfeat lstsq oldHist).masks
      = [List.replicate nfeat true, List.replicate nfeat true] := by
  obtain ⟨f, rfl⟩ : ∃ f, maxIter = f + 1 := ⟨maxIter - 1, by omega⟩
  unfold stlsqFit STLSQreduce
  rw [if_neg (Nat.succ_ne_zero f)]
  have hscat : scatter (List.replicate nfeat true) (R (List.replicate nfeat true))
      = R (List.replicate nfeat true) := scatter_replicate_true nfeat _ hlen
  have hbig : bigInd 0 (R (List.replicate nfeat true)) = List.replicate nfeat true := by
    rw [bigInd_nonpos le_rfl, hlen]
  have happ : applyThreshold 0 (R (List.replicate nfeat true)) = R (List.replicate nfeat true) :=
    applyThreshold_nonpos le_rfl _
  simp [reduceLoop, countTrue_replicate_true, hscat, happ, hbig,
    (show ¬ nfeat = 0 by omega)]

/-- Witness for C7 at a concrete instantiation. -/
theorem stlsq_zero_threshold_witness :
    1 ≤ 1 ∧ 1 ≤ 2 ∧ (oracleTwoFeat (List.replicate 2 true)).length = 2 ∧
      ((stlsqFit oracleTwoFeat 0 1 2 [1, 1] []).ind = List.replicate 2 true ∧
        (stlsqFit oracleTwoFeat 0 1 2 [1, 1] []).coef = oracleTwoFeat (List.replicate 2 true) ∧
        (stlsqFit oracleTwoFeat 0 1 2 [1, 1] []).state = LoopState.converged ∧
        (stlsqFit oracleTwoFeat 0 1 2 [1, 1] []).masks
          = [List.replicate 2 true, List.replicate 2 true]) :=
  ⟨by omega, by omega, by decide,
    stlsq_zero_threshold oracleTwoFeat 1 2 [1, 1] [] (by omega) (by omega) (by decide)⟩

/-! C9: inactive coefficients are zero. -/

theorem getD_replicate_zero (n i : ℕ) : (List.replicate n (0 : ℚ)).getD i 0 = 0 := by
  induction n generalizing i with
  | zero => rfl
  | succ n ih =>
    cases i with
    | zero => rfl
    | succ i => exact ih i

theorem threshold_pair_zero (θ : ℚ) (v : Vec) :
    ∀ i, (bigInd θ v).getD i false = false → (applyThreshold θ v).getD i 0 = 0 := by
  induction v with
  | nil => intro i _; rfl
  | cons x v ih =>
    intro i h
    cases i with
    | zero =>
      simp [bigInd] at h
      simp [applyThreshold, h]
    | succ i =>
      have h2 := ih i (by simpa [bigInd] using h)
      simpa [applyThreshold] using h2

theorem reduceLoop_inactive_zero (R : List Bool → Vec) (θ : ℚ) (nsel : ℕ) :
    ∀ (fuel : ℕ) (ind : List Bool) (coef : Vec) (hist : List Vec) (iters : ℕ)
      (mtr : List (List Bool)) (rtr : List RoundInfo),
      (1 ≤ fuel ∨ ∀ i, ind.getD i false = false → coef.getD i 0 = 0) →
      ∀ i, (reduceLoop R θ nsel fuel ind coef hist iters mtr rtr).ind.getD i false = false →
        (reduceLoop R θ nsel fuel ind coef hist iters mtr rtr).coef.getD i 0 = 0 := by
  intro fuel
  induction fuel with
  | zero =>
    intro ind coef hist iters mtr rtr h i hfalse
    rcases h with h | h
    · omega
    · exact h i hfalse
  | succ n ih =>
    intro ind coef hist iters mtr rtr _h i
    simp only [reduceLoop]
    split
    · intro _
      exact getD_replicate_zero _ _
    · split
      · exact threshold_pair_zero θ _ i
      · exact ih _ _ _ _ _ _ (Or.inr (threshold_pair_zero θ _)) i

/-- C9: for every STLSQ fit that completes (with the validated
`max_iter ≥ 1`), the final coefficient vector is exactly zero at every index
where the final support mask is false — both in the degenerate all-zero case
and in the normal thresholded case. -/
theorem stlsq_inactive_coef_zero (R : List Bool → Vec) (θ : ℚ) (maxIter nfeat : ℕ)
    (lstsq : Vec) (oldHist : List Vec) (hm : 1 ≤ maxIter) :
    ∀ i, (stlsqFit R θ maxIter nfeat lstsq oldHist).ind.getD i false = false →
      (stlsqFit R θ maxIter nfeat lstsq oldHist).coef.getD i 0 = 0 := by
  unfold stlsqFit STLSQreduce
  rw [if_neg (by omega : ¬ maxIter = 0)]
  exact reduceLoop_inactive_zero R θ _ maxIter _ _ _ _ _ _ (Or.inl hm)

/-- Witness for C9 at a concrete instantiation. -/
theorem stlsq_inactive_coef_zero_witness :
    1 ≤ 20 ∧ (stlsqFit (fun _ => [-1]) 5 20 1 [0] []).ind.getD 0 false = false ∧
      (stlsqFit (fun _ => [-1]) 5 20 1 [0] []).coef.getD 0 0 = 0 :=
  ⟨by omega, by decide,
    stlsq_inactive_coef_zero (fun _ => [-1]) 5 20 1 [0] [] (by omega) 0 (by decide)⟩

/-! C1: the support mask is monotone across rounds. -/

theorem countTrue_cons (x : Bool) (l : List Bool) :
    countTrue (x :: l) = countTrue l + (if x = true then 1 else 0) := by
  simp [countTrue, List.countP_cons]

theorem maskLe_refl (a : List Bool) : maskLe a a := by
  induction a with
  | nil => exact List.Forall₂.nil
  | cons x a ih => exact List.Forall₂.cons (fun h => h) ih

theorem maskLe_trans {a b c : List Bool} (h1 : maskLe a b) (h2 : maskLe b c) : maskLe a c := by
  induction h1 generalizing c with
  | nil => cases h2; exact List.Forall₂.nil
  | cons hxy _ ih =>
    cases h2 with
    | cons hyz ht => exact List.Forall₂.cons (fun h => hyz (hxy h)) (ih ht)

theorem countTrue_le_of_maskLe : ∀ {a b : List Bool}, maskLe a b → countTrue a ≤ countTrue b := by
  intro a b h
  induction h with
  | nil => exact Nat.le_refl 0
  | @cons x y l1 l2 h1 h2 ih =>
    rw [countTrue_cons, countTrue_cons]
    cases x
    · cases y
      · simpa using ih
      · simp
        omega
    · rw [h1 rfl]
      simp
      omega

theorem maskLe_eq_of_count {a b : List Bool} (h : maskLe a b)
    (hc : countTrue a = countTrue b) : a = b := by
  induction h with
  | nil => rfl
  | @cons x y l1 l2 h1 h2 ih =>
    rw [countTrue_cons, countTrue_cons] at hc
    cases x
    · cases y
      · simp at hc
        rw [ih hc]
      · exfalso
        have := countTrue_le_of_maskLe h2
        simp at hc
        omega
    · have hy := h1 rfl
      subst hy
      simp at hc
      rw [ih hc]

theorem bigInd_scatter_le {θ : ℚ} (hθ : 0 < θ) : ∀ (ind : List Bool) (c : Vec),
    maskLe (bigInd θ (scatter ind c)) ind := by
  intro ind
  induction ind with
  | nil => intro c; exact List.Forall₂.nil
  | cons b ind ih =>
    intro c
    cases b
    · refine List.Forall₂.cons ?_ (ih c)
      intro h
      simp [abs_zero] at h
      exact absurd h (not_le.2 hθ)
    · cases c with
      | nil =>
        refine List.Forall₂.cons ?_ (ih [])
        intro _
        rfl
      | cons v c =>
        refine List.Forall₂.cons ?_ (ih c)
        intro _
        rfl

theorem reduceLoop_masks_pairwise (R : List Bool → Vec) (θ : ℚ) (nsel nfeat : ℕ) :
    ∀ (fuel : ℕ) (ind : List Bool) (coef : Vec) (hist : List Vec) (iters : ℕ)
      (rest : List (List Bool)) (rtr : List RoundInfo),
      ind.length = nfeat →
      (θ ≤ 0 → ind = List.replicate nfeat true) →
      List.Pairwise maskLe (ind :: rest) →
      List.Pairwise maskLe
        ((reduceLoop R θ nsel fuel ind coef hist iters (ind :: rest) rtr).masks) := by
  intro fuel
  induction fuel with
  | zero =>
    intro ind coef hist iters rest rtr _ _ hpw
    exact hpw
  | succ n ih =>
    intro ind coef hist iters rest rtr hlen hz hpw
    simp only [reduceLoop]
    split
    · exact hpw
    · have hfl : (scatter ind (R ind)).length = nfeat := by rw [scatter_length]; exact hlen
      have hle : maskLe (bigInd θ (scatter ind (R ind))) ind := by
        rcases le_or_lt θ 0 with h0 | h0
        · rw [bigInd_nonpos h0, hfl, hz h0]
          exact maskLe_refl _
        · exact bigInd_scatter_le h0 ind (R ind)
      have hpw2 : List.Pairwise maskLe (bigInd θ (scatter ind (R ind)) :: ind :: rest) := by
        rcases List.pairwise_cons.1 hpw with ⟨hall, -⟩
        refine List.pairwise_cons.2 ⟨?_, hpw⟩
        intro z hz2
        rcases List.mem_cons.1 hz2 with rfl | hz3
        · exact hle
        · exact maskLe_trans hle (hall z hz3)
      split
      · exact hpw2
      · exact ih _ _ _ _ _ _ (by rw [bigInd_length]; exact hfl)
          (fun h0 => by rw [bigInd_nonpos h0, hfl]) hpw2

/-- C1: for every STLSQ fit, along the trace of support masks (newest first:
each thresholding round's output mask, ending with the all-true mask that
entered the loop), every later-round mask is pointwise below every
earlier-round mask — once a feature is dropped its mask entry stays false in
every later round — and consequently the active-support size is non-increasing
from each round to every later one. -/
theorem stlsq_support_monotone (R : List Bool → Vec) (θ : ℚ) (maxIter nfeat : ℕ)
    (lstsq : Vec) (oldHist : List Vec) :
    List.Pairwise maskLe (stlsqFit R θ maxIter nfeat lstsq oldHist).masks ∧
    List.Pairwise (fun a b => countTrue a ≤ countTrue b)
      (stlsqFit R θ maxIter nfeat lstsq oldHist).masks := by
  have hp : List.Pairwise maskLe (stlsqFit R θ maxIter nfeat lstsq oldHist).masks := by
    unfold stlsqFit STLSQreduce
    split
    · exact List.pairwise_singleton _ _
    · exact reduceLoop_masks_pairwise R θ _ nfeat maxIter _ lstsq (lstsq :: oldHist) 0 [] []
        (List.length_replicate nfeat true) (fun _ => rfl)
        (List.pairwise_singleton _ _)
  exact ⟨hp, hp.imp countTrue_le_of_maskLe⟩

/-! C2: the stopping test. -/

theorem pattern_length (v : Vec) : (pattern v).length = v.length := by
  simp [pattern]

theorem zip_all_isNZ : ∀ (x y : Vec), x.length = y.length →
    ((((x.zip y).all fun p => isNZ p.1 == isNZ p.2) = true) ↔ pattern x = pattern y) := by
  intro x
  induction x with
  | nil =>
    intro y h
    have hy : y = [] := List.length_eq_zero.1 h.symm
    subst hy
    simp [pattern]
  | cons a x ih =>
    intro y h
    cases y with
    | nil => simp at h
    | cons b y =>
      have hxy := ih y (by simpa using h)
      rw [List.zip_cons_cons, List.all_cons, Bool.and_eq_true, beq_iff_eq, hxy]
      simp [pattern]

theorem noChange_cons_cons_iff (x y : Vec) (t : List Vec) (h : x.length = y.length) :
    (noChange (x :: y :: t) = true ↔ pattern x = pattern y) :=
  zip_all_isNZ x y h

theorem pattern_applyThreshold {θ : ℚ} (hθ : 0 < θ) (v : Vec) :
    pattern (applyThreshold θ v) = bigInd θ v := by
  induction v with
  | nil => rfl
  | cons x v ih =>
    show isNZ (if θ ≤ |x| then x else 0) :: pattern (applyThreshold θ v)
        = decide (θ ≤ |x|) :: bigInd θ v
    rw [ih]
    congr 1
    by_cases h : θ ≤ |x|
    · rw [if_pos h]
      have hx : x ≠ 0 := by
        intro h0
        subst h0
        simp [abs_zero] at h
        exact absurd h (not_le.2 hθ)
      simp [isNZ, hx, h]
    · rw [if_neg h]
      simp [isNZ, h]

theorem reduceLoop_rounds_good (R : List Bool → Vec) (θ : ℚ) (nfeat : ℕ) (hθ : 0 ≤ θ) :
    ∀ (fuel : ℕ) (ind : List Bool) (coef : Vec) (hh : Vec) (ht : List Vec) (iters : ℕ)
      (mtr : List (List Bool)) (rtr : List RoundInfo),
      ind.length = nfeat →
      hh.length = nfeat →
      (0 < θ → (pattern hh = ind ∨ countTrue ind = nfeat)) →
      (θ = 0 → ind = List.replicate nfeat true) →
      (∀ r ∈ rtr, GoodRound r) →
      ∀ r ∈ (reduceLoop R θ nfeat fuel ind coef (hh :: ht) iters mtr rtr).rounds, GoodRound r := by
  intro fuel
  induction fuel with
  | zero =>
    intro ind coef hh ht iters mtr rtr _ _ _ _ hgood
    exact hgood
  | succ n ih =>
    intro ind coef hh ht iters mtr rtr hlen hhl hinv hz hgood
    simp only [reduceLoop]
    split
    · exact hgood
    · have hfl : (scatter ind (R ind)).length = nfeat := by rw [scatter_length]; exact hlen
      have hcl : (applyThreshold θ (scatter ind (R ind))).length = nfeat := by
        rw [applyThreshold_length]; exact hfl
      have hNC : (noChange (applyThreshold θ (scatter ind (R ind)) :: hh :: ht) = true ↔
          pattern (applyThreshold θ (scatter ind (R ind))) = pattern hh) :=
        noChange_cons_cons_iff _ _ _ (by rw [hcl, hhl])
      have hkey : ((decide (countTrue (bigInd θ (scatter ind (R ind))) = nfeat)
            || noChange (applyThreshold θ (scatter ind (R ind)) :: hh :: ht)) = true ↔
          (countTrue (bigInd θ (scatter ind (R ind))) = countTrue ind ∨
            pattern (applyThreshold θ (scatter ind (R ind))) = pattern hh)) := by
        rw [Bool.or_eq_true, decide_eq_true_iff, hNC]
        rcases lt_or_eq_of_le hθ with hpos | hzero
        · have hle := bigInd_scatter_le hpos ind (R ind)
          have hcle := countTrue_le_of_maskLe hle
          have hindle : countTrue ind ≤ nfeat := by
            rw [← hlen]; exact countTrue_le_length ind
          constructor
          · rintro (hsz | hpat)
            · left; omega
            · right; exact hpat
          · rintro (hsz | hpat)
            · rcases hinv hpos with hp | hfull
              · right
                have heq : bigInd θ (scatter ind (R ind)) = ind := maskLe_eq_of_count hle hsz
                rw [pattern_applyThreshold hpos, heq, hp]
              · left; omega
            · right; exact hpat
        · have h0 : θ = 0 := hzero.symm
          have hireq : ind = List.replicate nfeat true := hz h0
          have hbig : bigInd θ (scatter ind (R ind)) = List.replicate nfeat true := by
            rw [h0, bigInd_nonpos le_rfl, hfl]
          constructor
          · rintro (hsz | hpat)
            · left
              rw [hbig, hireq]
            · right; exact hpat
          · rintro (hsz | hpat)
            · left
              rw [hbig, countTrue_replicate_true]
            · right; exact hpat
      split
      · intro r hr
        rcases List.mem_cons.1 hr with rfl | hr2
        · simpa [GoodRound] using hkey
        · exact hgood r hr2
      · refine ih _ _ _ _ _ _ _ (by rw [bigInd_length]; exact hfl) hcl
          (fun hpos => Or.inl (pattern_applyThreshold hpos _))
          (fun h0 => by rw [h0, bigInd_nonpos le_rfl, hfl])
          ?_
        intro r hr
        rcases List.mem_cons.1 hr with rfl | hr2
        · simpa [GoodRound] using hkey
        · exact hgood r hr2

/-- C2 (counterexample): in the concrete fit `exampleRunC2` the loop ends its
first (and only) round in the converged state, yet the support size changed
across that round and the newest history entry's zero/nonzero pattern differs
from the all-zero baseline: the claimed equivalence fails, because during a
fit the first round is compared against the initial least-squares guess
appended by `fit`, not against an all-zero baseline. -/
theorem stlsq_convergence_claim_refuted :
    exampleRunC2.rounds.length = 1 ∧
    ¬ ((exampleRunC2.rounds.headD default).conv = true ↔
        (countTrue (exampleRunC2.rounds.headD default).indAfter
            = countTrue (exampleRunC2.rounds.headD default).indBefore ∨
          pattern (exampleRunC2.rounds.headD default).entry
            = pattern (List.replicate 2 (0 : ℚ)))) :=
  ⟨by decide, by decide⟩

/-- C2 (amended): for every STLSQ fit (with the validated `threshold ≥ 0` and
a full-length initial guess), a round ends the loop in the converged state
exactly when, after thresholding, (a) the support size equals the support size
entering that round, or (b) the zero/nonzero pattern of the newest history
entry equals that of the immediately preceding history entry — where in the
first round the preceding entry is the initial least-squares guess that `fit`
appended (the all-zero fallback of `_no_change` is unreachable during a
fit). -/
theorem stlsq_convergence_condition (R : List Bool → Vec) (θ : ℚ)
    (maxIter nfeat : ℕ) (lstsq : Vec) (oldHist : List Vec)
    (hθ : 0 ≤ θ) (hlen : lstsq.length = nfeat) :
    ∀ r ∈ (stlsqFit R θ maxIter nfeat lstsq oldHist).rounds, GoodRound r := by
  unfold stlsqFit STLSQreduce
  split
  · intro r hr
    exact absurd hr (List.not_mem_nil r)
  · rw [countTrue_replicate_true]
    exact reduceLoop_rounds_good R θ nfeat hθ maxIter (List.replicate nfeat true) lstsq
      lstsq oldHist 0 [List.replicate nfeat true] []
      (List.length_replicate nfeat true) hlen
      (fun _ => Or.inr (countTrue_replicate_true nfeat)) (fun _ => rfl)
      (fun r hr => absurd hr (List.not_mem_nil r))

/-- Witness for C2 (amended) at a concrete instantiation. -/
theorem stlsq_convergence_condition_witness :
    (0 : ℚ) ≤ 2 ∧ ([1, 0] : Vec).length = 2 ∧ GoodRound (exampleRunC2.rounds.headD default) :=
  ⟨by norm_num, rfl,
    stlsq_convergence_condition (fun _ => [3, 1]) 2 20 2 [1, 0] [] (by norm_num) rfl
      (exampleRunC2.rounds.headD default) (by decide)⟩

/-! C4: what a refit resets and what it carries over. -/

theorem noChange_pair (x y : Vec) (t : List Vec) :
    noChange (x :: y :: t) = ((x.zip y).all fun p => isNZ p.1 == isNZ p.2) := rfl

theorem reduceLoop_hist_suffix (R : List Bool → Vec) (θ : ℚ) (nsel : ℕ) :
    ∀ (fuel : ℕ) (ind : List Bool) (coef : Vec) (a : Vec) (t : List Vec) (iters : ℕ)
      (mtr : List (List Bool)) (rtr : List RoundInfo),
      reduceLoop R θ nsel fuel ind coef (a :: t) iters mtr rtr =
        { reduceLoop R θ nsel fuel ind coef [a] iters mtr rtr with
            hist := (reduceLoop R θ nsel fuel ind coef [a] iters mtr rtr).hist ++ t } := by
  intro fuel
  induction fuel with
  | zero =>
    intro ind coef a t iters mtr rtr
    rfl
  | succ n ih =>
    intro ind coef a t iters mtr rtr
    simp only [reduceLoop]
    split
    · rfl
    · simp only [noChange_pair, List.headD_cons]
      split
      · rfl
      · rw [ih _ _ _ (a :: t), ih _ _ _ [a]]
        simp [List.append_assoc]

/-- C4 (amended): at the start of every fit the iteration counter, support
mask and coefficient vector are recreated fresh — every field of the fit
result other than the history is identical to the result of the same fit on a
fresh instance — but the history is NOT reset: the history after a fit equals
the current fit's entries followed by all entries carried over from previous
fits on the same instance. -/
theorem fit_fresh_state_except_history (R : List Bool → Vec) (θ : ℚ)
    (maxIter nfeat : ℕ) (lstsq : Vec) (oldHist : List Vec) :
    stlsqFit R θ maxIter nfeat lstsq oldHist =
      { stlsqFit R θ maxIter nfeat lstsq [] with
          hist := (stlsqFit R θ maxIter nfeat lstsq []).hist ++ oldHist } := by
  unfold stlsqFit STLSQreduce
  by_cases hM : maxIter = 0
  · rw [if_pos hM, if_pos hM]
    rfl
  · rw [if_neg hM, if_neg hM]
    exact reduceLoop_hist_suffix R θ _ maxIter _ lstsq lstsq oldHist 0 _ []

/-- C4 (counterexample): `fit` does not clear `history_`, so a second fit on
the same instance keeps the first fit's snapshots: after refitting, the
history is the current fit's entries followed by the first fit's history, and
in particular differs from the history of the identical fit on a fresh
instance. -/
theorem refit_history_carryover :
    fitTwice.hist = fitOnce.hist ++ fitOnce.hist ∧ fitOnce.hist = [[5], [3]] ∧
      fitTwice.hist ≠ fitOnce.hist :=
  ⟨by decide, by decide, by decide⟩
